import Mathlib

/-
Shallow embedding of the command-area computation in
"Command Area For Reservoir/Reservoir.py".

The program loads an elevation grid (DEM), validates an outlet pixel,
runs an elevation-constrained 8-connected breadth-first flood fill from the
outlet (mask value 1, "Default"), optionally grows the area with a one-time
flood-level tolerance applied at the boundary ring followed by a strict
downstream BFS (mask value 2, "FloodExpansion"), and computes statistics.

Elevations and the flood level are modelled as rationals, cells as integer
(row, col) pairs, the mask as a function from cells to Nat (0 = Unvisited,
1 = Default, 2 = FloodExpansion).  The mutable state of the Python loops is
an explicit record holding the mask, the FIFO work queue and a log of every
mask write (position, previous value, written value).
-/

abbrev Cell : Type := Int × Int

structure Grid where
  height : Nat
  width : Nat
  elev : Int → Int → ℚ
  nodata : Option ℚ
  ta : ℚ
  te : ℚ

/-- Bounds check `0 <= r < height and 0 <= c < width` from the source. -/
def inB (g : Grid) (p : Cell) : Prop :=
  0 ≤ p.1 ∧ p.1 < (g.height : Int) ∧ 0 ≤ p.2 ∧ p.2 < (g.width : Int)

instance (g : Grid) (p : Cell) : Decidable (inB g p) := by
  unfold inB; infer_instance

/-- The source condition `nodata is None or dem[r, c] != nodata`. -/
def notNoData (g : Grid) (p : Cell) : Prop :=
  g.nodata ≠ some (g.elev p.1 p.2)

instance (g : Grid) (p : Cell) : Decidable (notNoData g p) := by
  unfold notNoData; infer_instance

/-- The 8-neighbour offsets, in source order. -/
def neighborOffsets : List (Int × Int) :=
  [(-1, -1), (-1, 0), (-1, 1), (0, -1), (0, 1), (1, -1), (1, 0), (1, 1)]

def cshift (p : Cell) (d : Int × Int) : Cell := (p.1 + d.1, p.2 + d.2)

/-- 8-connectivity: `q` is one of the 8 neighbours of `p`. -/
def Adj (p q : Cell) : Prop := ∃ d ∈ neighborOffsets, q = cshift p d

instance (p q : Cell) : Decidable (Adj p q) := by
  unfold Adj; infer_instance

abbrev Mask : Type := Cell → Nat

def upd (m : Mask) (p : Cell) (v : Nat) : Mask := fun q => if q = p then v else m q

/-- State of the traversal loops: the mask array, the pending FIFO queue and
the trace of mask writes as (cell, previous value, new value). -/
structure St where
  mask : Mask
  queue : List Cell
  log : List (Cell × Nat × Nat)

/-- One neighbour examination: admit `n` (write value `v`, enqueue, log) iff
it is in bounds, currently unvisited, not nodata and its elevation is at most
the reference elevation `pe`. -/
def visit (g : Grid) (v : Nat) (pe : ℚ) (st : St) (n : Cell) : St :=
  if inB g n ∧ st.mask n = 0 ∧ notNoData g n ∧ g.elev n.1 n.2 ≤ pe then
    { mask := upd st.mask n v, queue := st.queue ++ [n],
      log := st.log ++ [(n, st.mask n, v)] }
  else st

def visitList (g : Grid) (v : Nat) (pe : ℚ) (p : Cell) (st : St)
    (ds : List (Int × Int)) : St :=
  List.foldl (fun s d => visit g v pe s (cshift p d)) st ds

/-- Examine all 8 neighbours of `p` against reference elevation `pe`. -/
def visitAll (g : Grid) (v : Nat) (pe : ℚ) (p : Cell) (st : St) : St :=
  visitList g v pe p st neighborOffsets

/-- The `while queue:` loop: pop the front cell and examine its neighbours
against the popped cell's own elevation.  Structured on explicit fuel. -/
def bfs (g : Grid) (v : Nat) : Nat → St → St
  | 0, st => st
  | fuel + 1, st =>
    match st.queue with
    | [] => st
    | p :: rest => bfs g v fuel (visitAll g v (g.elev p.1 p.2) p ⟨st.mask, rest, st.log⟩)

/-- Initial state of step 1: the outlet is marked `1` and enqueued. -/
def initSt (o : Cell) : St :=
  { mask := upd (fun _ => 0) o 1, queue := [o], log := [(o, 0, 1)] }

def fuelFor (g : Grid) : Nat := 2 * (g.height * g.width) + 1

/-- Step 1 of the source: delineate the default command area. -/
def delinSt (g : Grid) (o : Cell) : St := bfs g 1 (fuelFor g) (initSt o)

/-- All grid cells in the source's scan order (row major). -/
def allCells (g : Grid) : List Cell :=
  (List.range g.height).flatMap
    (fun r => (List.range g.width).map (fun c => (Int.ofNat r, Int.ofNat c)))

/-- A cell has an in-bounds unvisited 8-neighbour. -/
def unvNbr (g : Grid) (m : Mask) (p : Cell) : Prop :=
  ∃ d ∈ neighborOffsets, inB g (cshift p d) ∧ m (cshift p d) = 0

instance (g : Grid) (m : Mask) (p : Cell) : Decidable (unvNbr g m p) := by
  unfold unvNbr; infer_instance

/-- Boundary detection: every `Default` cell with at least one in-bounds
unvisited neighbour, in scan order. -/
def boundaryCells (g : Grid) (m : Mask) : List Cell :=
  (allCells g).filter (fun p => decide (m p = 1 ∧ unvNbr g m p))

/-- Phase 1 of the flood expansion, folded over a given boundary list: each
boundary cell's neighbours are admitted with value 2 when their elevation is
at most the boundary cell's elevation plus the flood level.  Admitted cells
accumulate in the state's queue (the `new_additions` of the source). -/
def phase1From (g : Grid) (fl : ℚ) (st : St) (bl : List Cell) : St :=
  List.foldl (fun s b => visitAll g 2 (g.elev b.1 b.2 + fl) b s) st bl

def phase1 (g : Grid) (fl : ℚ) (bl : List Cell) (m : Mask)
    (lg : List (Cell × Nat × Nat)) : St :=
  phase1From g fl ⟨m, [], lg⟩ bl

/-- Flood expansion: phase 1 over the boundary list, then phase 2, the plain
downstream BFS (value 2, no tolerance) seeded with the phase-1 additions. -/
def expandSt (g : Grid) (fl : ℚ) (bl : List Cell) (st1 : St) : St :=
  let p1 := phase1 g fl bl st1.mask st1.log
  bfs g 2 (2 * (g.height * g.width) + 1 + p1.queue.length) p1

/-- Steps 1 and 2 of the source: delineation, then (only when the flood
level is positive) boundary detection and the two expansion phases. -/
def runFrom (g : Grid) (o : Cell) (fl : ℚ) : St :=
  let st1 := delinSt g o
  if 0 < fl then expandSt g fl (boundaryCells g st1.mask) st1 else st1

def cellsFinset (g : Grid) : Finset Cell :=
  Finset.Ico (0 : Int) (g.height : Int) ×ˢ Finset.Ico (0 : Int) (g.width : Int)

/-- Number of in-grid cells with the given mask value (`np.sum(mask == v)`). -/
def countEq (g : Grid) (m : Mask) (v : Nat) : Nat :=
  ((cellsFinset g).filter (fun p => m p = v)).card

/-- Number of in-grid cells with non-zero mask (`np.sum(mask > 0)`). -/
def countPos (g : Grid) (m : Mask) : Nat :=
  ((cellsFinset g).filter (fun p => m p ≠ 0)).card

/-- Termination measure of the BFS loops. -/
def meas (g : Grid) (st : St) : Nat :=
  2 * (g.height * g.width - countPos g st.mask) + st.queue.length

/-- The two fatal outlet-validation errors of the source. -/
inductive OErr : Type
  | OutOfBounds
  | NoDataOutlet
deriving DecidableEq

structure RunResult where
  mask : Mask
  log : List (Cell × Nat × Nat)
  pixelArea : ℚ
  defaultArea : Nat
  totalPixels : Nat
  totalArea : ℚ
  expansionReported : Nat

/-- The whole computation: outlet validation (in source order, bounds before
nodata), delineation, optional expansion, and the statistics of the RESULTS
section (`pixel_area = abs(transform.a * transform.e)`, total pixel count of
the final mask, total area, and reported expansion `total - default`). -/
def run (g : Grid) (o : Cell) (fl : ℚ) : Except OErr RunResult :=
  if ¬ inB g o then Except.error OErr.OutOfBounds
  else if ¬ notNoData g o then Except.error OErr.NoDataOutlet
  else Except.ok
    { mask := (runFrom g o fl).mask,
      log := (runFrom g o fl).log,
      pixelArea := |g.ta * g.te|,
      defaultArea := countEq g (delinSt g o).mask 1,
      totalPixels := countPos g (runFrom g o fl).mask,
      totalArea := (countPos g (runFrom g o fl).mask : ℚ) * |g.ta * g.te|,
      expansionReported :=
        countPos g (runFrom g o fl).mask - countEq g (delinSt g o).mask 1 }

/-- Declarative reachability: the outlet itself, and closure under 8-connected
steps into in-bounds, non-nodata cells of non-increasing elevation. -/
inductive Reach (g : Grid) (o : Cell) : Cell → Prop
  | base : Reach g o o
  | step {p q : Cell} : Reach g o p → Adj p q → inB g q → notNoData g q →
      g.elev q.1 q.2 ≤ g.elev p.1 p.2 → Reach g o q

/-- Reachability from a seed list through cells unvisited in `m0`. -/
inductive RF (g : Grid) (m0 : Mask) (q0 : List Cell) : Cell → Prop
  | seed {p : Cell} : p ∈ q0 → RF g m0 q0 p
  | step {p q : Cell} : RF g m0 q0 p → Adj p q → inB g q → m0 q = 0 →
      notNoData g q → g.elev q.1 q.2 ≤ g.elev p.1 p.2 → RF g m0 q0 q

/-- Phase-1 admissibility: unvisited after delineation, in bounds, not
nodata, and an 8-neighbour of a boundary cell within the flood tolerance. -/
def P1Adm (g : Grid) (m1 : Mask) (bl : List Cell) (fl : ℚ) (x : Cell) : Prop :=
  m1 x = 0 ∧ inB g x ∧ notNoData g x ∧
    ∃ b ∈ bl, Adj b x ∧ g.elev x.1 x.2 ≤ g.elev b.1 b.2 + fl

instance (g : Grid) (m1 : Mask) (bl : List Cell) (fl : ℚ) (x : Cell) :
    Decidable (P1Adm g m1 bl fl x) := by
  unfold P1Adm; infer_instance

/-- A cell ends as `FloodExpansion` iff it is phase-1 admissible or reachable
from a phase-1 admissible cell by strict downstream steps through cells left
unvisited by the delineation. -/
inductive FloodReach (g : Grid) (m1 : Mask) (bl : List Cell) (fl : ℚ) : Cell → Prop
  | seed {x : Cell} : P1Adm g m1 bl fl x → FloodReach g m1 bl fl x
  | step {p q : Cell} : FloodReach g m1 bl fl p → Adj p q → inB g q → m1 q = 0 →
      notNoData g q → g.elev q.1 q.2 ≤ g.elev p.1 p.2 → FloodReach g m1 bl fl q

/-- All admissible neighbours of `p` are already visited in `m`. -/
def NbrClosed (g : Grid) (m : Mask) (p : Cell) : Prop :=
  ∀ d ∈ neighborOffsets, inB g (cshift p d) → notNoData g (cshift p d) →
    g.elev (cshift p d).1 (cshift p d).2 ≤ g.elev p.1 p.2 → m (cshift p d) ≠ 0

/-- Loop invariant of the generalised BFS with mark value `v`, relative to
the initial mask `m0` and seed queue `q0`. -/
def BfsInv (g : Grid) (v : Nat) (m0 : Mask) (q0 : List Cell) (st : St) : Prop :=
  (∀ x, st.mask x = m0 x ∨ (m0 x = 0 ∧ st.mask x = v ∧ RF g m0 q0 x)) ∧
  (∀ p ∈ st.queue, st.mask p = v ∧ RF g m0 q0 p) ∧
  (∀ p, st.mask p = v → p ∈ st.queue ∨ NbrClosed g st.mask p)

/-- Well-formedness of the write log: every write hit an unvisited, in-bounds,
non-nodata cell with a non-zero value, positions are pairwise distinct and
stay non-zero in the current mask. -/
def LogOK (g : Grid) (st : St) : Prop :=
  (∀ e ∈ st.log, e.2.1 = 0 ∧ e.2.2 ≠ 0 ∧ inB g e.1 ∧ notNoData g e.1) ∧
  (st.log.map Prod.fst).Nodup ∧
  (∀ e ∈ st.log, st.mask e.1 ≠ 0)

/-- The 3×3 scenario grid of the spec: elevation 5 at the centre, 10 around,
no nodata sentinel, unit pixel scale. -/
def grid3 : Grid :=
  { height := 3, width := 3,
    elev := fun r c => if r = 1 ∧ c = 1 then 5 else 10,
    nodata := none, ta := 1, te := 1 }

theorem visit_mask (g : Grid) (v : Nat) (pe : ℚ) (st : St) (n x : Cell) :
    (visit g v pe st n).mask x =
      if x = n ∧ st.mask n = 0 ∧ inB g n ∧ notNoData g n ∧ g.elev n.1 n.2 ≤ pe then v
      else st.mask x := by
  unfold visit
  by_cases hg : inB g n ∧ st.mask n = 0 ∧ notNoData g n ∧ g.elev n.1 n.2 ≤ pe
  · rw [if_pos hg]
    by_cases hx : x = n
    · subst hx
      rw [if_pos ⟨rfl, hg.2.1, hg.1, hg.2.2.1, hg.2.2.2⟩]
      show upd st.mask x v x = v
      simp [upd]
    · rw [if_neg (fun h => hx h.1)]
      show upd st.mask n v x = st.mask x
      simp [upd, hx]
  · rw [if_neg hg, if_neg (fun h => hg ⟨h.2.2.1, h.2.1, h.2.2.2.1, h.2.2.2.2⟩)]

theorem visit_queue (g : Grid) (v : Nat) (pe : ℚ) (st : St) (n : Cell) :
    (visit g v pe st n).queue =
      if inB g n ∧ st.mask n = 0 ∧ notNoData g n ∧ g.elev n.1 n.2 ≤ pe
      then st.queue ++ [n] else st.queue := by
  unfold visit; split_ifs <;> rfl

theorem visit_log (g : Grid) (v : Nat) (pe : ℚ) (st : St) (n : Cell) :
    (visit g v pe st n).log =
      if inB g n ∧ st.mask n = 0 ∧ notNoData g n ∧ g.elev n.1 n.2 ≤ pe
      then st.log ++ [(n, st.mask n, v)] else st.log := by
  unfold visit; split_ifs <;> rfl

theorem visitList_nil (g : Grid) (v : Nat) (pe : ℚ) (p : Cell) (st : St) :
    visitList g v pe p st [] = st := rfl

theorem visitList_cons (g : Grid) (v : Nat) (pe : ℚ) (p : Cell) (st : St)
    (d : Int × Int) (ds : List (Int × Int)) :
    visitList g v pe p st (d :: ds) =
      visitList g v pe p (visit g v pe st (cshift p d)) ds := rfl


theorem visitList_mask (g : Grid) {v : Nat} (hv : v ≠ 0) (pe : ℚ) (p : Cell)
    (ds : List (Int × Int)) (st : St) (x : Cell) :
    (visitList g v pe p st ds).mask x =
      if st.mask x = 0 ∧ inB g x ∧ notNoData g x ∧ (∃ d ∈ ds, x = cshift p d) ∧
          g.elev x.1 x.2 ≤ pe
      then v else st.mask x := by
  induction ds generalizing st with
  | nil =>
    rw [visitList_nil, if_neg]
    rintro ⟨-, -, -, ⟨d, hd, -⟩, -⟩
    exact absurd hd (List.not_mem_nil d)
  | cons d ds ih =>
    rw [visitList_cons, ih]
    by_cases hx : x = cshift p d
    · subst hx
      by_cases hc : st.mask (cshift p d) = 0 ∧ inB g (cshift p d) ∧
          notNoData g (cshift p d) ∧ g.elev (cshift p d).1 (cshift p d).2 ≤ pe
      · have hm : (visit g v pe st (cshift p d)).mask (cshift p d) = v := by
          rw [visit_mask, if_pos ⟨rfl, hc.1, hc.2.1, hc.2.2.1, hc.2.2.2⟩]
        rw [hm, ite_self,
          if_pos ⟨hc.1, hc.2.1, hc.2.2.1, ⟨d, List.mem_cons_self d ds, rfl⟩, hc.2.2.2⟩]
      · have hm : (visit g v pe st (cshift p d)).mask (cshift p d) =
            st.mask (cshift p d) := by
          rw [visit_mask, if_neg (fun h => hc ⟨h.2.1, h.2.2.1, h.2.2.2.1, h.2.2.2.2⟩)]
        rw [hm, if_neg (fun h => hc ⟨h.1, h.2.1, h.2.2.1, h.2.2.2.2⟩),
          if_neg (fun h => hc ⟨h.1, h.2.1, h.2.2.1, h.2.2.2.2⟩)]
    · have hm : (visit g v pe st (cshift p d)).mask x = st.mask x := by
        rw [visit_mask, if_neg (fun h => hx h.1)]
      rw [hm]
      by_cases hrest : st.mask x = 0 ∧ inB g x ∧ notNoData g x ∧
          (∃ d2 ∈ ds, x = cshift p d2) ∧ g.elev x.1 x.2 ≤ pe
      · obtain ⟨d2, hd2, hx2⟩ := hrest.2.2.2.1
        rw [if_pos hrest,
          if_pos ⟨hrest.1, hrest.2.1, hrest.2.2.1,
            ⟨d2, List.mem_cons_of_mem d hd2, hx2⟩, hrest.2.2.2.2⟩]
      · rw [if_neg hrest, if_neg]
        rintro ⟨hm2, hb, hn, ⟨d2, hd2, hx2⟩, hl⟩
        rcases List.mem_cons.mp hd2 with rfl | hd3
        · exact hx hx2
        · exact hrest ⟨hm2, hb, hn, ⟨d2, hd3, hx2⟩, hl⟩

theorem visitList_queue (g : Grid) {v : Nat} (hv : v ≠ 0) (pe : ℚ) (p : Cell)
    (ds : List (Int × Int)) (st : St) (q : Cell) :
    q ∈ (visitList g v pe p st ds).queue ↔
      q ∈ st.queue ∨ (st.mask q = 0 ∧ (visitList g v pe p st ds).mask q = v) := by
  induction ds generalizing st with
  | nil =>
    rw [visitList_nil]
    constructor
    · exact Or.inl
    · rintro (h | ⟨h0, hvq⟩)
      · exact h
      · exact absurd (h0.symm.trans hvq).symm hv
  | cons d ds ih =>
    rw [visitList_cons, ih]
    by_cases hg : inB g (cshift p d) ∧ st.mask (cshift p d) = 0 ∧
        notNoData g (cshift p d) ∧ g.elev (cshift p d).1 (cshift p d).2 ≤ pe
    · have hq2 : (visit g v pe st (cshift p d)).queue = st.queue ++ [cshift p d] := by
        rw [visit_queue, if_pos hg]
      have hm : (visit g v pe st (cshift p d)).mask (cshift p d) = v := by
        rw [visit_mask, if_pos ⟨rfl, hg.2.1, hg.1, hg.2.2.1, hg.2.2.2⟩]
      have hF : (visitList g v pe p (visit g v pe st (cshift p d)) ds).mask
          (cshift p d) = v := by
        rw [visitList_mask g hv, if_neg (fun h => hv (hm ▸ h.1))]
        exact hm
      rw [hq2]
      by_cases hq : q = cshift p d
      · subst hq
        constructor
        · intro _
          exact Or.inr ⟨hg.2.1, hF⟩
        · intro _
          exact Or.inl (List.mem_append.mpr (Or.inr (List.mem_singleton.mpr rfl)))
      · have hmq : (visit g v pe st (cshift p d)).mask q = st.mask q := by
          rw [visit_mask, if_neg (fun h => hq h.1)]
        rw [hmq]
        constructor
        · rintro (hmem | hr)
          · rcases List.mem_append.mp hmem with h1 | h2
            · exact Or.inl h1
            · exact absurd (List.mem_singleton.mp h2) hq
          · exact Or.inr hr
        · rintro (hmem | hr)
          · exact Or.inl (List.mem_append.mpr (Or.inl hmem))
          · exact Or.inr hr
    · have hq2 : (visit g v pe st (cshift p d)).queue = st.queue := by
        rw [visit_queue, if_neg hg]
      have hmq : ∀ y, (visit g v pe st (cshift p d)).mask y = st.mask y := by
        intro y
        rw [visit_mask, if_neg (fun h => hg ⟨h.2.2.1, h.2.1, h.2.2.2.1, h.2.2.2.2⟩)]
      rw [hq2, hmq]

theorem mem_cellsFinset (g : Grid) (p : Cell) : p ∈ cellsFinset g ↔ inB g p := by
  unfold cellsFinset inB
  simp only [Finset.mem_product, Finset.mem_Ico]
  tauto

theorem card_cellsFinset (g : Grid) : (cellsFinset g).card = g.height * g.width := by
  unfold cellsFinset
  rw [Finset.card_product, Int.card_Ico, Int.card_Ico]
  simp

theorem countPos_le (g : Grid) (m : Mask) : countPos g m ≤ g.height * g.width := by
  unfold countPos
  calc ((cellsFinset g).filter (fun p => m p ≠ 0)).card
      ≤ (cellsFinset g).card := Finset.card_filter_le _ _
    _ = g.height * g.width := card_cellsFinset g

theorem countPos_upd (g : Grid) (m : Mask) (n : Cell) (v : Nat) (hb : inB g n)
    (h0 : m n = 0) (hv : v ≠ 0) : countPos g (upd m n v) = countPos g m + 1 := by
  unfold countPos
  have hset : (cellsFinset g).filter (fun p => upd m n v p ≠ 0)
      = insert n ((cellsFinset g).filter (fun p => m p ≠ 0)) := by
    ext y
    simp only [Finset.mem_filter, Finset.mem_insert]
    constructor
    · rintro ⟨hy, hny⟩
      by_cases hyn : y = n
      · exact Or.inl hyn
      · refine Or.inr ⟨hy, ?_⟩
        unfold upd at hny
        rwa [if_neg hyn] at hny
    · rintro (rfl | ⟨hy, hny⟩)
      · refine ⟨(mem_cellsFinset g y).mpr hb, ?_⟩
        unfold upd
        rw [if_pos rfl]
        exact hv
      · refine ⟨hy, ?_⟩
        unfold upd
        by_cases hyn : y = n
        · rw [if_pos hyn]; exact hv
        · rw [if_neg hyn]; exact hny
  rw [hset, Finset.card_insert_of_not_mem]
  simp only [Finset.mem_filter, not_and, not_not]
  intro _
  exact h0

theorem visit_meas (g : Grid) {v : Nat} (hv : v ≠ 0) (pe : ℚ) (st : St) (n : Cell) :
    meas g (visit g v pe st n) ≤ meas g st := by
  unfold visit
  by_cases hg : inB g n ∧ st.mask n = 0 ∧ notNoData g n ∧ g.elev n.1 n.2 ≤ pe
  · rw [if_pos hg]
    show 2 * (g.height * g.width - countPos g (upd st.mask n v))
        + (st.queue ++ [n]).length ≤ meas g st
    have h1 := countPos_upd g st.mask n v hg.1 hg.2.1 hv
    have h2 := countPos_le g (upd st.mask n v)
    rw [h1] at h2
    rw [List.length_append, h1]
    unfold meas
    simp only [List.length_singleton]
    omega
  · rw [if_neg hg]

theorem visitList_meas (g : Grid) {v : Nat} (hv : v ≠ 0) (pe : ℚ) (p : Cell)
    (ds : List (Int × Int)) (st : St) :
    meas g (visitList g v pe p st ds) ≤ meas g st := by
  induction ds generalizing st with
  | nil => rw [visitList_nil]
  | cons d ds ih =>
    rw [visitList_cons]
    exact le_trans (ih _) (visit_meas g hv pe st (cshift p d))

theorem bfs_zero (g : Grid) (v : Nat) (st : St) : bfs g v 0 st = st := rfl

theorem bfs_succ_nil (g : Grid) (v : Nat) (fuel : Nat) (st : St)
    (h : st.queue = []) : bfs g v (fuel + 1) st = st := by
  unfold bfs
  rw [h]

theorem bfs_succ_cons (g : Grid) (v : Nat) (fuel : Nat) (st : St) (p : Cell)
    (rest : List Cell) (h : st.queue = p :: rest) :
    bfs g v (fuel + 1) st =
      bfs g v fuel (visitAll g v (g.elev p.1 p.2) p ⟨st.mask, rest, st.log⟩) := by
  conv_lhs => unfold bfs
  rw [h]

theorem bfs_queue_empty (g : Grid) {v : Nat} (hv : v ≠ 0) :
    ∀ (fuel : Nat) (st : St), meas g st ≤ fuel → (bfs g v fuel st).queue = [] := by
  intro fuel
  induction fuel with
  | zero =>
    intro st h
    rw [bfs_zero]
    have hlen : st.queue.length = 0 := by
      unfold meas at h
      omega
    exact List.length_eq_zero.mp hlen
  | succ fuel ih =>
    intro st h
    cases hq : st.queue with
    | nil =>
      rw [bfs_succ_nil g v fuel st hq, hq]
    | cons p rest =>
      rw [bfs_succ_cons g v fuel st p rest hq]
      apply ih
      refine le_trans (visitList_meas g hv (g.elev p.1 p.2) p neighborOffsets _) ?_
      show 2 * (g.height * g.width - countPos g st.mask) + rest.length ≤ fuel
      unfold meas at h
      rw [hq] at h
      simp only [List.length_cons] at h
      omega

theorem pop_pres (g : Grid) {v : Nat} (hv : v ≠ 0) (m0 : Mask) (q0 : List Cell)
    (st : St) (hInv : BfsInv g v m0 q0 st) (p : Cell) (rest : List Cell)
    (hq : st.queue = p :: rest) :
    BfsInv g v m0 q0 (visitAll g v (g.elev p.1 p.2) p ⟨st.mask, rest, st.log⟩) := by
  obtain ⟨hM, hB, hC⟩ := hInv
  have hp : st.mask p = v ∧ RF g m0 q0 p := by
    refine hB p ?_
    rw [hq]
    exact List.mem_cons_self p rest
  have hm0 : ∀ x, st.mask x = 0 → m0 x = 0 := by
    intro x hx
    rcases hM x with heq | ⟨-, hveq, -⟩
    · exact heq ▸ hx
    · exact absurd (hveq.symm.trans hx) hv
  have fmask : ∀ x, (visitAll g v (g.elev p.1 p.2) p ⟨st.mask, rest, st.log⟩).mask x =
      if st.mask x = 0 ∧ inB g x ∧ notNoData g x ∧ Adj p x ∧
          g.elev x.1 x.2 ≤ g.elev p.1 p.2
      then v else st.mask x :=
    fun x => visitList_mask g hv (g.elev p.1 p.2) p neighborOffsets ⟨st.mask, rest, st.log⟩ x
  have fqueue : ∀ q, q ∈ (visitAll g v (g.elev p.1 p.2) p ⟨st.mask, rest, st.log⟩).queue ↔
      q ∈ rest ∨ (st.mask q = 0 ∧
        (visitAll g v (g.elev p.1 p.2) p ⟨st.mask, rest, st.log⟩).mask q = v) :=
    fun q => visitList_queue g hv (g.elev p.1 p.2) p neighborOffsets ⟨st.mask, rest, st.log⟩ q
  have hstep : ∀ x, st.mask x = 0 → inB g x → notNoData g x → Adj p x →
      g.elev x.1 x.2 ≤ g.elev p.1 p.2 → RF g m0 q0 x :=
    fun x h0 hb hn ha hl => RF.step hp.2 ha hb (hm0 x h0) hn hl
  refine ⟨?_, ?_, ?_⟩
  · intro x
    by_cases hcond : st.mask x = 0 ∧ inB g x ∧ notNoData g x ∧ Adj p x ∧
        g.elev x.1 x.2 ≤ g.elev p.1 p.2
    · have hFx : (visitAll g v (g.elev p.1 p.2) p ⟨st.mask, rest, st.log⟩).mask x = v := by
        rw [fmask x, if_pos hcond]
      exact Or.inr ⟨hm0 x hcond.1, hFx,
        hstep x hcond.1 hcond.2.1 hcond.2.2.1 hcond.2.2.2.1 hcond.2.2.2.2⟩
    · have hFx : (visitAll g v (g.elev p.1 p.2) p ⟨st.mask, rest, st.log⟩).mask x
          = st.mask x := by
        rw [fmask x, if_neg hcond]
      rw [hFx]
      exact hM x
  · intro q hqF
    rcases (fqueue q).mp hqF with hmem | ⟨hq0, hFv⟩
    · have hq2 : q ∈ st.queue := by
        rw [hq]
        exact List.mem_cons_of_mem p hmem
      obtain ⟨hqv, hqRF⟩ := hB q hq2
      have hFq : (visitAll g v (g.elev p.1 p.2) p ⟨st.mask, rest, st.log⟩).mask q
          = st.mask q := by
        rw [fmask q, if_neg (fun hc => hv (hqv.symm.trans hc.1))]
      exact ⟨hFq.trans hqv, hqRF⟩
    · have hcond : st.mask q = 0 ∧ inB g q ∧ notNoData g q ∧ Adj p q ∧
          g.elev q.1 q.2 ≤ g.elev p.1 p.2 := by
        by_contra hc
        rw [fmask q, if_neg hc] at hFv
        exact hv (hq0.symm.trans hFv).symm
      exact ⟨hFv, hstep q hcond.1 hcond.2.1 hcond.2.2.1 hcond.2.2.2.1 hcond.2.2.2.2⟩
  · intro x hx
    by_cases hcond : st.mask x = 0 ∧ inB g x ∧ notNoData g x ∧ Adj p x ∧
        g.elev x.1 x.2 ≤ g.elev p.1 p.2
    · exact Or.inl ((fqueue x).mpr (Or.inr ⟨hcond.1, hx⟩))
    · have hFx : (visitAll g v (g.elev p.1 p.2) p ⟨st.mask, rest, st.log⟩).mask x
          = st.mask x := by
        rw [fmask x, if_neg hcond]
      have hsx : st.mask x = v := hFx.symm.trans hx
      rcases hC x hsx with hmem | hcl
      · rw [hq] at hmem
        rcases List.mem_cons.mp hmem with rfl | hmem2
        · refine Or.inr ?_
          intro d hd hbq hnq hleq
          by_cases hcd : st.mask (cshift x d) = 0 ∧ inB g (cshift x d) ∧
              notNoData g (cshift x d) ∧ Adj x (cshift x d) ∧
              g.elev (cshift x d).1 (cshift x d).2 ≤ g.elev x.1 x.2
          · have hFy : (visitAll g v (g.elev x.1 x.2) x
                ⟨st.mask, rest, st.log⟩).mask (cshift x d) = v := by
              rw [fmask _, if_pos hcd]
            rw [hFy]
            exact hv
          · have hne : st.mask (cshift x d) ≠ 0 := by
              intro h0
              exact hcd ⟨h0, hbq, hnq, ⟨d, hd, rfl⟩, hleq⟩
            have hFy : (visitAll g v (g.elev x.1 x.2) x
                ⟨st.mask, rest, st.log⟩).mask (cshift x d) = st.mask (cshift x d) := by
              rw [fmask _, if_neg hcd]
            rw [hFy]
            exact hne
        · exact Or.inl ((fqueue x).mpr (Or.inl hmem2))
      · refine Or.inr ?_
        intro d hd hbq hnq hleq
        have hne := hcl d hd hbq hnq hleq
        by_cases hcd : st.mask (cshift x d) = 0 ∧ inB g (cshift x d) ∧
            notNoData g (cshift x d) ∧ Adj p (cshift x d) ∧
            g.elev (cshift x d).1 (cshift x d).2 ≤ g.elev p.1 p.2
        · have hFy : (visitAll g v (g.elev p.1 p.2) p
              ⟨st.mask, rest, st.log⟩).mask (cshift x d) = v := by
            rw [fmask _, if_pos hcd]
          rw [hFy]
          exact hv
        · have hFy : (visitAll g v (g.elev p.1 p.2) p
              ⟨st.mask, rest, st.log⟩).mask (cshift x d) = st.mask (cshift x d) := by
            rw [fmask _, if_neg hcd]
          rw [hFy]
          exact hne

theorem bfs_inv (g : Grid) {v : Nat} (hv : v ≠ 0) (m0 : Mask) (q0 : List Cell) :
    ∀ (fuel : Nat) (st : St), BfsInv g v m0 q0 st →
      BfsInv g v m0 q0 (bfs g v fuel st) := by
  intro fuel
  induction fuel with
  | zero =>
    intro st h
    rw [bfs_zero]
    exact h
  | succ fuel ih =>
    intro st h
    cases hq : st.queue with
    | nil =>
      rw [bfs_succ_nil g v fuel st hq]
      exact h
    | cons p rest =>
      rw [bfs_succ_cons g v fuel st p rest hq]
      exact ih _ (pop_pres g hv m0 q0 st h p rest hq)

theorem bfs_main (g : Grid) {v : Nat} (hv : v ≠ 0) (fuel : Nat) (st0 : St)
    (hq1 : ∀ p ∈ st0.queue, st0.mask p = v)
    (hq2 : ∀ p, st0.mask p = v → p ∈ st0.queue)
    (hf : meas g st0 ≤ fuel) :
    (∀ x, RF g st0.mask st0.queue x → (bfs g v fuel st0).mask x = v) ∧
    (∀ x, ¬ RF g st0.mask st0.queue x → (bfs g v fuel st0).mask x = st0.mask x) ∧
    (∀ p q, (bfs g v fuel st0).mask p = v → Adj p q → inB g q → notNoData g q →
      g.elev q.1 q.2 ≤ g.elev p.1 p.2 → (bfs g v fuel st0).mask q ≠ 0) := by
  have hInv0 : BfsInv g v st0.mask st0.queue st0 := by
    refine ⟨fun x => Or.inl rfl, fun p hp => ⟨hq1 p hp, RF.seed hp⟩, fun p hp => Or.inl (hq2 p hp)⟩
  have hInvF := bfs_inv g hv st0.mask st0.queue fuel st0 hInv0
  have hempty := bfs_queue_empty g hv fuel st0 hf
  obtain ⟨hM, hB, hC⟩ := hInvF
  have hclosure : ∀ p q, (bfs g v fuel st0).mask p = v → Adj p q → inB g q →
      notNoData g q → g.elev q.1 q.2 ≤ g.elev p.1 p.2 →
      (bfs g v fuel st0).mask q ≠ 0 := by
    intro p q hp hadj hb hn hl
    rcases hC p hp with hmem | hcl
    · rw [hempty] at hmem
      exact absurd hmem (List.not_mem_nil p)
    · obtain ⟨d, hd, rfl⟩ := hadj
      exact hcl d hd hb hn hl
  refine ⟨?_, ?_, hclosure⟩
  · intro x hx
    induction hx with
    | seed hp =>
      rename_i z
      rcases hM z with heq | ⟨-, hveq, -⟩
      · exact heq.trans (hq1 z hp)
      · exact hveq
    | step hr hadj hb hz hn hl ih =>
      rename_i a b
      have hbne := hclosure a b ih hadj hb hn hl
      rcases hM b with heq | ⟨-, hveq, -⟩
      · exact absurd (heq.trans hz) hbne
      · exact hveq
  · intro x hx
    rcases hM x with heq | ⟨-, -, hrf⟩
    · exact heq
    · exact absurd hrf hx

theorem reach_iff_rf (g : Grid) (o x : Cell) :
    Reach g o x ↔ RF g (upd (fun _ => 0) o 1) [o] x := by
  constructor
  · intro h
    induction h with
    | base => exact RF.seed (List.mem_singleton.mpr rfl)
    | step hr hadj hb hn hl ih =>
      rename_i a b
      by_cases hqo : b = o
      · rw [hqo]
        exact RF.seed (List.mem_singleton.mpr rfl)
      · refine RF.step ih hadj hb ?_ hn hl
        show (if b = o then 1 else 0) = 0
        rw [if_neg hqo]
  · intro h
    induction h with
    | seed hp =>
      rename_i z
      rw [List.mem_singleton.mp hp]
      exact Reach.base
    | step hr hadj hb hz hn hl ih => exact Reach.step ih hadj hb hn hl

theorem delin_main (g : Grid) (o : Cell) :
    (∀ x, Reach g o x → (delinSt g o).mask x = 1) ∧
    (∀ x, ¬ Reach g o x → (delinSt g o).mask x = (if x = o then 1 else 0)) ∧
    (∀ p q, (delinSt g o).mask p = 1 → Adj p q → inB g q → notNoData g q →
      g.elev q.1 q.2 ≤ g.elev p.1 p.2 → (delinSt g o).mask q ≠ 0) := by
  have hq1 : ∀ p ∈ (initSt o).queue, (initSt o).mask p = 1 := by
    intro p hp
    rw [List.mem_singleton.mp hp]
    show (if o = o then 1 else 0) = 1
    rw [if_pos rfl]
  have hq2 : ∀ p, (initSt o).mask p = 1 → p ∈ (initSt o).queue := by
    intro p hp
    by_cases hpo : p = o
    · rw [hpo]
      exact List.mem_singleton.mpr rfl
    · exfalso
      have h2 : (if p = o then 1 else 0 : Nat) = 1 := hp
      rw [if_neg hpo] at h2
      exact absurd h2.symm one_ne_zero
  have hf : meas g (initSt o) ≤ fuelFor g := by
    have hle := countPos_le g (initSt o).mask
    show 2 * (g.height * g.width - countPos g (initSt o).mask) + 1
        ≤ 2 * (g.height * g.width) + 1
    omega
  obtain ⟨hA, hB2, hC2⟩ := bfs_main g one_ne_zero (fuelFor g) (initSt o) hq1 hq2 hf
  refine ⟨?_, ?_, hC2⟩
  · intro x hx
    exact hA x ((reach_iff_rf g o x).mp hx)
  · intro x hx
    exact hB2 x (fun hr => hx ((reach_iff_rf g o x).mpr hr))

/-- C1: after the default delineation (for any grid and outlet, before the
expansion phase), a cell has mask value `Default` iff it is the outlet or is
reachable from the outlet by a chain of 8-connected steps into in-bounds,
non-nodata cells of non-increasing elevation; in particular the outlet cell
itself is `Default`.  The right-hand side is an order-free closure, so the
`Default` set is independent of the BFS visitation order. -/
theorem C1_default_delineation (g : Grid) (o : Cell) :
    (∀ x, (delinSt g o).mask x = 1 ↔ Reach g o x) ∧ (delinSt g o).mask o = 1 := by
  obtain ⟨hA, hB2, -⟩ := delin_main g o
  have hiff : ∀ x, (delinSt g o).mask x = 1 ↔ Reach g o x := by
    intro x
    constructor
    · intro hx
      by_cases hr : Reach g o x
      · exact hr
      · rw [hB2 x hr] at hx
        by_cases hxo : x = o
        · rw [hxo]
          exact Reach.base
        · rw [if_neg hxo] at hx
          exact absurd hx.symm one_ne_zero
    · intro hr
      exact hA x hr
  exact ⟨hiff, (hiff o).mpr Reach.base⟩

/-- C1 witness at the concrete 3×3 grid: the outlet cell of `grid3` is marked
`Default` by the delineation. -/
theorem C1_default_delineation_witness : (delinSt grid3 (1, 1)).mask (1, 1) = 1 :=
  (C1_default_delineation grid3 (1, 1)).2

theorem delin_le_one (g : Grid) (o : Cell) (x : Cell) : (delinSt g o).mask x ≤ 1 := by
  obtain ⟨hA, hB2, -⟩ := delin_main g o
  by_cases hr : Reach g o x
  · rw [hA x hr]
  · rw [hB2 x hr]
    by_cases hxo : x = o
    · rw [if_pos hxo]
    · rw [if_neg hxo]
      exact Nat.zero_le 1

theorem reach_inB (g : Grid) (o x : Cell) (h : Reach g o x) (ho : inB g o) :
    inB g x := by
  induction h with
  | base => exact ho
  | step hr hadj hb hn hl ih => exact hb

theorem delin_inB (g : Grid) (o : Cell) (ho : inB g o) (x : Cell)
    (hx : (delinSt g o).mask x ≠ 0) : inB g x := by
  obtain ⟨hA, hB2, -⟩ := delin_main g o
  by_cases hr : Reach g o x
  · exact reach_inB g o x hr ho
  · rw [hB2 x hr] at hx
    by_cases hxo : x = o
    · rw [hxo]
      exact ho
    · rw [if_neg hxo] at hx
      exact absurd rfl hx

theorem mem_allCells (g : Grid) (p : Cell) : p ∈ allCells g ↔ inB g p := by
  unfold allCells inB
  constructor
  · intro hp
    rw [List.mem_flatMap] at hp
    obtain ⟨r, hr, hmem⟩ := hp
    rw [List.mem_map] at hmem
    obtain ⟨c, hc, hpe⟩ := hmem
    rw [List.mem_range] at hr
    rw [List.mem_range] at hc
    rw [← hpe]
    dsimp only
    simp only [Int.ofNat_eq_natCast]
    omega
  · rintro ⟨h1, h2, h3, h4⟩
    rw [List.mem_flatMap]
    refine ⟨p.1.toNat, ?_, ?_⟩
    · rw [List.mem_range]
      omega
    · rw [List.mem_map]
      refine ⟨p.2.toNat, ?_, ?_⟩
      · rw [List.mem_range]
        omega
      · show (Int.ofNat p.1.toNat, Int.ofNat p.2.toNat) = p
        simp only [Int.ofNat_eq_natCast]
        have e1 : (p.1.toNat : Int) = p.1 := Int.toNat_of_nonneg h1
        have e2 : (p.2.toNat : Int) = p.2 := Int.toNat_of_nonneg h3
        rw [e1, e2]

theorem mem_boundaryCells (g : Grid) (m : Mask) (b : Cell) :
    b ∈ boundaryCells g m ↔ b ∈ allCells g ∧ m b = 1 ∧ unvNbr g m b := by
  unfold boundaryCells
  rw [List.mem_filter]
  simp only [decide_eq_true_eq]

/-- C4: after the default delineation, a cell is in the boundary set iff its
mask value is `Default` and it has at least one in-bounds 8-neighbour that is
still `Unvisited`; out-of-bounds neighbour positions never qualify. -/
theorem C4_boundary_detection (g : Grid) (o : Cell) (ho : inB g o) (b : Cell) :
    b ∈ boundaryCells g (delinSt g o).mask ↔
      ((delinSt g o).mask b = 1 ∧ unvNbr g (delinSt g o).mask b) := by
  rw [mem_boundaryCells]
  constructor
  · rintro ⟨-, h1, h2⟩
    exact ⟨h1, h2⟩
  · rintro ⟨h1, h2⟩
    refine ⟨(mem_allCells g b).mpr ?_, h1, h2⟩
    exact delin_inB g o ho b (by rw [h1]; exact one_ne_zero)

/-- C4 witness: on `grid3` with the centre outlet, the centre cell is in the
boundary set, via the characterisation applied at a concrete input. -/
theorem C4_boundary_detection_witness :
    (1, 1) ∈ boundaryCells grid3 (delinSt grid3 (1, 1)).mask :=
  (C4_boundary_detection grid3 (1, 1) (by decide) (1, 1)).mpr ⟨by decide, by decide⟩

theorem phase1From_nil (g : Grid) (fl : ℚ) (st : St) : phase1From g fl st [] = st := rfl

theorem phase1From_cons (g : Grid) (fl : ℚ) (st : St) (b : Cell) (bl : List Cell) :
    phase1From g fl st (b :: bl) =
      phase1From g fl (visitAll g 2 (g.elev b.1 b.2 + fl) b st) bl := rfl

theorem phase1From_mask (g : Grid) (fl : ℚ) (bl : List Cell) (st : St) (x : Cell) :
    (phase1From g fl st bl).mask x =
      if st.mask x = 0 ∧ inB g x ∧ notNoData g x ∧
          ∃ b ∈ bl, Adj b x ∧ g.elev x.1 x.2 ≤ g.elev b.1 b.2 + fl
      then 2 else st.mask x := by
  induction bl generalizing st with
  | nil =>
    rw [phase1From_nil, if_neg]
    rintro ⟨-, -, -, ⟨b, hb, -⟩⟩
    exact absurd hb (List.not_mem_nil b)
  | cons b bl ih =>
    rw [phase1From_cons, ih]
    have hva : ∀ y, (visitAll g 2 (g.elev b.1 b.2 + fl) b st).mask y =
        if st.mask y = 0 ∧ inB g y ∧ notNoData g y ∧ Adj b y ∧
            g.elev y.1 y.2 ≤ g.elev b.1 b.2 + fl
        then 2 else st.mask y :=
      fun y => visitList_mask g two_ne_zero (g.elev b.1 b.2 + fl) b neighborOffsets st y
    by_cases hcb : st.mask x = 0 ∧ inB g x ∧ notNoData g x ∧ Adj b x ∧
        g.elev x.1 x.2 ≤ g.elev b.1 b.2 + fl
    · have hm : (visitAll g 2 (g.elev b.1 b.2 + fl) b st).mask x = 2 := by
        rw [hva x, if_pos hcb]
      rw [hm, ite_self,
        if_pos ⟨hcb.1, hcb.2.1, hcb.2.2.1,
          ⟨b, List.mem_cons_self b bl, hcb.2.2.2.1, hcb.2.2.2.2⟩⟩]
    · have hm : (visitAll g 2 (g.elev b.1 b.2 + fl) b st).mask x = st.mask x := by
        rw [hva x, if_neg hcb]
      rw [hm]
      by_cases hrest : st.mask x = 0 ∧ inB g x ∧ notNoData g x ∧
          ∃ b2 ∈ bl, Adj b2 x ∧ g.elev x.1 x.2 ≤ g.elev b2.1 b2.2 + fl
      · obtain ⟨b2, hb2, hab2, hlb2⟩ := hrest.2.2.2
        rw [if_pos hrest,
          if_pos ⟨hrest.1, hrest.2.1, hrest.2.2.1,
            ⟨b2, List.mem_cons_of_mem b hb2, hab2, hlb2⟩⟩]
      · rw [if_neg hrest, if_neg]
        rintro ⟨hm0, hbx, hnx, ⟨b2, hb2, hab2, hlb2⟩⟩
        rcases List.mem_cons.mp hb2 with rfl | hb3
        · exact hcb ⟨hm0, hbx, hnx, hab2, hlb2⟩
        · exact hrest ⟨hm0, hbx, hnx, ⟨b2, hb3, hab2, hlb2⟩⟩

theorem phase1From_queue (g : Grid) (fl : ℚ) (bl : List Cell) (st : St) (q : Cell) :
    q ∈ (phase1From g fl st bl).queue ↔
      q ∈ st.queue ∨ (st.mask q = 0 ∧ (phase1From g fl st bl).mask q = 2) := by
  induction bl generalizing st with
  | nil =>
    rw [phase1From_nil]
    constructor
    · exact Or.inl
    · rintro (h | ⟨h0, h2⟩)
      · exact h
      · exact absurd (h0.symm.trans h2) (by omega)
  | cons b bl ih =>
    rw [phase1From_cons, ih]
    have hva : ∀ y, (visitAll g 2 (g.elev b.1 b.2 + fl) b st).mask y =
        if st.mask y = 0 ∧ inB g y ∧ notNoData g y ∧ Adj b y ∧
            g.elev y.1 y.2 ≤ g.elev b.1 b.2 + fl
        then 2 else st.mask y :=
      fun y => visitList_mask g two_ne_zero (g.elev b.1 b.2 + fl) b neighborOffsets st y
    have hq : ∀ y, y ∈ (visitAll g 2 (g.elev b.1 b.2 + fl) b st).queue ↔
        y ∈ st.queue ∨ (st.mask y = 0 ∧
          (visitAll g 2 (g.elev b.1 b.2 + fl) b st).mask y = 2) :=
      fun y => visitList_queue g two_ne_zero (g.elev b.1 b.2 + fl) b neighborOffsets st y
    constructor
    · rintro (hmem | ⟨h0, h2⟩)
      · rcases (hq q).mp hmem with h | ⟨h0, h2⟩
        · exact Or.inl h
        · refine Or.inr ⟨h0, ?_⟩
          rw [phase1From_mask,
            if_neg (fun hc => absurd (h2.symm.trans hc.1) (by omega))]
          exact h2
      · have hst0 : st.mask q = 0 := by
          by_cases hcb : st.mask q = 0 ∧ inB g q ∧ notNoData g q ∧ Adj b q ∧
              g.elev q.1 q.2 ≤ g.elev b.1 b.2 + fl
          · exact hcb.1
          · have := hva q
            rw [if_neg hcb] at this
            exact this ▸ h0
        exact Or.inr ⟨hst0, h2⟩
    · rintro (hmem | ⟨h0, h2⟩)
      · exact Or.inl ((hq q).mpr (Or.inl hmem))
      · by_cases hcb : st.mask q = 0 ∧ inB g q ∧ notNoData g q ∧ Adj b q ∧
            g.elev q.1 q.2 ≤ g.elev b.1 b.2 + fl
        · have h2va : (visitAll g 2 (g.elev b.1 b.2 + fl) b st).mask q = 2 := by
            rw [hva q, if_pos hcb]
          exact Or.inl ((hq q).mpr (Or.inr ⟨h0, h2va⟩))
        · have hva0 : (visitAll g 2 (g.elev b.1 b.2 + fl) b st).mask q = st.mask q := by
            rw [hva q, if_neg hcb]
          exact Or.inr ⟨hva0.trans h0, h2⟩

theorem expand_main (g : Grid) (o : Cell) (fl : ℚ) (bl : List Cell) :
    (∀ x, FloodReach g (delinSt g o).mask bl fl x →
      (expandSt g fl bl (delinSt g o)).mask x = 2) ∧
    (∀ x, ¬ FloodReach g (delinSt g o).mask bl fl x →
      (expandSt g fl bl (delinSt g o)).mask x = (delinSt g o).mask x) := by
  have hp1pos : ∀ y, P1Adm g (delinSt g o).mask bl fl y →
      (phase1 g fl bl (delinSt g o).mask (delinSt g o).log).mask y = 2 := by
    intro y hy
    have hh := phase1From_mask g fl bl ⟨(delinSt g o).mask, [], (delinSt g o).log⟩ y
    have hy2 : (⟨(delinSt g o).mask, [], (delinSt g o).log⟩ : St).mask y = 0 ∧
        inB g y ∧ notNoData g y ∧
        ∃ b ∈ bl, Adj b y ∧ g.elev y.1 y.2 ≤ g.elev b.1 b.2 + fl := hy
    rw [if_pos hy2] at hh
    exact hh
  have hp1neg : ∀ y, ¬ P1Adm g (delinSt g o).mask bl fl y →
      (phase1 g fl bl (delinSt g o).mask (delinSt g o).log).mask y
        = (delinSt g o).mask y := by
    intro y hy
    have hh := phase1From_mask g fl bl ⟨(delinSt g o).mask, [], (delinSt g o).log⟩ y
    have hy2 : ¬ ((⟨(delinSt g o).mask, [], (delinSt g o).log⟩ : St).mask y = 0 ∧
        inB g y ∧ notNoData g y ∧
        ∃ b ∈ bl, Adj b y ∧ g.elev y.1 y.2 ≤ g.elev b.1 b.2 + fl) := fun hc => hy hc
    rw [if_neg hy2] at hh
    exact hh
  have hp1q : ∀ q, q ∈ (phase1 g fl bl (delinSt g o).mask (delinSt g o).log).queue ↔
      ((delinSt g o).mask q = 0 ∧
        (phase1 g fl bl (delinSt g o).mask (delinSt g o).log).mask q = 2) := by
    intro q
    have hh := phase1From_queue g fl bl ⟨(delinSt g o).mask, [], (delinSt g o).log⟩ q
    constructor
    · intro hq
      rcases hh.mp hq with habs | hok
      · exact absurd habs (List.not_mem_nil q)
      · exact hok
    · intro hok
      exact hh.mpr (Or.inr hok)
  have hq1 : ∀ p ∈ (phase1 g fl bl (delinSt g o).mask (delinSt g o).log).queue,
      (phase1 g fl bl (delinSt g o).mask (delinSt g o).log).mask p = 2 :=
    fun p hp => ((hp1q p).mp hp).2
  have hq2 : ∀ p, (phase1 g fl bl (delinSt g o).mask (delinSt g o).log).mask p = 2 →
      p ∈ (phase1 g fl bl (delinSt g o).mask (delinSt g o).log).queue := by
    intro p hp
    refine (hp1q p).mpr ⟨?_, hp⟩
    by_cases hadm : P1Adm g (delinSt g o).mask bl fl p
    · exact hadm.1
    · exfalso
      have hh := hp1neg p hadm
      have h2 : (delinSt g o).mask p = 2 := hh.symm.trans hp
      have hle := delin_le_one g o p
      omega
  have hf : meas g (phase1 g fl bl (delinSt g o).mask (delinSt g o).log)
      ≤ 2 * (g.height * g.width) + 1
        + (phase1 g fl bl (delinSt g o).mask (delinSt g o).log).queue.length := by
    unfold meas
    omega
  obtain ⟨hA, hB, hcl⟩ := bfs_main g two_ne_zero
    (2 * (g.height * g.width) + 1
      + (phase1 g fl bl (delinSt g o).mask (delinSt g o).log).queue.length)
    (phase1 g fl bl (delinSt g o).mask (delinSt g o).log) hq1 hq2 hf
  have rf2_fr : ∀ x, RF g (phase1 g fl bl (delinSt g o).mask (delinSt g o).log).mask
      (phase1 g fl bl (delinSt g o).mask (delinSt g o).log).queue x →
      FloodReach g (delinSt g o).mask bl fl x := by
    intro x h
    induction h with
    | seed hp =>
      rename_i z
      obtain ⟨hz0, hz2⟩ := (hp1q z).mp hp
      by_cases hadm : P1Adm g (delinSt g o).mask bl fl z
      · exact FloodReach.seed hadm
      · exfalso
        have hh := hp1neg z hadm
        have h2 : (delinSt g o).mask z = 2 := hh.symm.trans hz2
        omega
    | step hr hadj hb hz hn hl ih =>
      rename_i a b2
      have hm10 : (delinSt g o).mask b2 = 0 := by
        by_cases hadm : P1Adm g (delinSt g o).mask bl fl b2
        · have hh := hp1pos b2 hadm
          exact absurd (hh.symm.trans hz) (by omega)
        · exact (hp1neg b2 hadm).symm.trans hz
      exact FloodReach.step ih hadj hb hm10 hn hl
  constructor
  · intro x h
    induction h with
    | seed hadm =>
      rename_i z
      by_cases hrf : RF g (phase1 g fl bl (delinSt g o).mask (delinSt g o).log).mask
          (phase1 g fl bl (delinSt g o).mask (delinSt g o).log).queue z
      · exact hA z hrf
      · exact (hB z hrf).trans (hp1pos z hadm)
    | step hr hadj hb hz hn hl ih =>
      rename_i a b2
      have hbne := hcl a b2 ih hadj hb hn hl
      by_cases hrf : RF g (phase1 g fl bl (delinSt g o).mask (delinSt g o).log).mask
          (phase1 g fl bl (delinSt g o).mask (delinSt g o).log).queue b2
      · exact hA b2 hrf
      · by_cases hadm : P1Adm g (delinSt g o).mask bl fl b2
        · exact (hB b2 hrf).trans (hp1pos b2 hadm)
        · exact absurd ((hB b2 hrf).trans ((hp1neg b2 hadm).trans hz)) hbne
  · intro x h
    have hrf : ¬ RF g (phase1 g fl bl (delinSt g o).mask (delinSt g o).log).mask
        (phase1 g fl bl (delinSt g o).mask (delinSt g o).log).queue x :=
      fun hr => h (rf2_fr x hr)
    have hadm : ¬ P1Adm g (delinSt g o).mask bl fl x :=
      fun ha => h (FloodReach.seed ha)
    exact (hB x hrf).trans (hp1neg x hadm)

theorem runFrom_pos (g : Grid) (o : Cell) (fl : ℚ) (h : 0 < fl) :
    runFrom g o fl = expandSt g fl (boundaryCells g (delinSt g o).mask) (delinSt g o) := by
  show (if 0 < fl then expandSt g fl (boundaryCells g (delinSt g o).mask) (delinSt g o)
    else delinSt g o) = _
  rw [if_pos h]

theorem runFrom_not_pos (g : Grid) (o : Cell) (fl : ℚ) (h : ¬ 0 < fl) :
    runFrom g o fl = delinSt g o := by
  show (if 0 < fl then expandSt g fl (boundaryCells g (delinSt g o).mask) (delinSt g o)
    else delinSt g o) = delinSt g o
  rw [if_neg h]

theorem fr_m1_zero (g : Grid) (m1 : Mask) (bl : List Cell) (fl : ℚ) (x : Cell)
    (h : FloodReach g m1 bl fl x) : m1 x = 0 := by
  induction h with
  | seed hadm => exact hadm.1
  | step hr hadj hb hz hn hl ih => exact hz

theorem fr_mono (g : Grid) (m1 : Mask) (bl : List Cell) (fl1 fl2 : ℚ)
    (hle : fl1 ≤ fl2) (x : Cell) (h : FloodReach g m1 bl fl1 x) :
    FloodReach g m1 bl fl2 x := by
  induction h with
  | seed hadm =>
    obtain ⟨h0, hb2, hn, b, hbmem, hadj, hlev⟩ := hadm
    exact FloodReach.seed ⟨h0, hb2, hn, b, hbmem, hadj,
      le_trans hlev (by linarith)⟩
  | step hr hadj hb hz hn hl ih => exact FloodReach.step ih hadj hb hz hn hl

theorem fr_congr (g : Grid) (m1 : Mask) (bl bl2 : List Cell) (fl : ℚ)
    (hmem : ∀ b, b ∈ bl ↔ b ∈ bl2) (x : Cell) (h : FloodReach g m1 bl fl x) :
    FloodReach g m1 bl2 fl x := by
  induction h with
  | seed hadm =>
    obtain ⟨h0, hb2, hn, b, hbmem, hadj, hlev⟩ := hadm
    exact FloodReach.seed ⟨h0, hb2, hn, b, (hmem b).mp hbmem, hadj, hlev⟩
  | step hr hadj hb hz hn hl ih => exact FloodReach.step ih hadj hb hz hn hl

/-- C2: with a positive flood level, a cell ends the run with mask value
`FloodExpansion` iff it is phase-1 admissible against the fixed, precomputed
boundary set (flood tolerance applied exactly once, at the boundary ring) or
reachable from a phase-1 admissible cell by strict non-increasing 8-connected
steps through cells left unvisited by the delineation. -/
theorem C2_flood_expansion (g : Grid) (o : Cell) (fl : ℚ) (hfl : 0 < fl) (x : Cell) :
    (runFrom g o fl).mask x = 2 ↔
      FloodReach g (delinSt g o).mask (boundaryCells g (delinSt g o).mask) fl x := by
  rw [runFrom_pos g o fl hfl]
  obtain ⟨hA, hB⟩ := expand_main g o fl (boundaryCells g (delinSt g o).mask)
  constructor
  · intro h
    by_contra hn
    rw [hB x hn] at h
    have := delin_le_one g o x
    omega
  · exact hA x

/-- C2 witness: on `grid3` with flood level 5, the corner cell (0,0) is a
phase-1 admission from the boundary cell (1,1), so it is `FloodExpansion`. -/
theorem C2_flood_expansion_witness : (runFrom grid3 (1, 1) 5).mask (0, 0) = 2 :=
  (C2_flood_expansion grid3 (1, 1) 5 (by decide) (0, 0)).mpr
    (FloodReach.seed (by with_unfolding_all decide))

/-- C6: with flood level 0 the boundary detection and both expansion phases
are skipped entirely: the final state is exactly the delineation state, and no
cell has mask value `FloodExpansion`. -/
theorem C6_zero_flood_level (g : Grid) (o : Cell) :
    runFrom g o 0 = delinSt g o ∧ ∀ x, (runFrom g o 0).mask x ≠ 2 := by
  have h0 : runFrom g o 0 = delinSt g o := runFrom_not_pos g o 0 (lt_irrefl 0)
  refine ⟨h0, fun x => ?_⟩
  rw [h0]
  have := delin_le_one g o x
  omega

/-- C6 witness: the flood-level-0 run on `grid3` is the delineation state. -/
theorem C6_zero_flood_level_witness :
    runFrom grid3 (1, 1) 0 = delinSt grid3 (1, 1) :=
  (C6_zero_flood_level grid3 (1, 1)).1

/-- C7: the computation is a pure function of (grid, outlet, flood level) —
running it twice yields identical results — and the final mask is invariant
under any permutation of the boundary list that phase 1 iterates over. -/
theorem C7_determinism (g : Grid) (o : Cell) (fl : ℚ) (bl : List Cell)
    (hperm : bl.Perm (boundaryCells g (delinSt g o).mask)) :
    run g o fl = run g o fl ∧
    ∀ x, (expandSt g fl bl (delinSt g o)).mask x =
      (expandSt g fl (boundaryCells g (delinSt g o).mask) (delinSt g o)).mask x := by
  refine ⟨rfl, fun x => ?_⟩
  obtain ⟨hA1, hB1⟩ := expand_main g o fl bl
  obtain ⟨hA2, hB2⟩ := expand_main g o fl (boundaryCells g (delinSt g o).mask)
  by_cases hfr : FloodReach g (delinSt g o).mask
      (boundaryCells g (delinSt g o).mask) fl x
  · rw [hA1 x (fr_congr g (delinSt g o).mask (boundaryCells g (delinSt g o).mask)
      bl fl (fun b => hperm.mem_iff.symm) x hfr), hA2 x hfr]
  · rw [hB1 x (fun hc => hfr (fr_congr g (delinSt g o).mask bl
      (boundaryCells g (delinSt g o).mask) fl (fun b => hperm.mem_iff) x hc)),
      hB2 x hfr]

/-- C7 witness: with the concrete singleton boundary list of `grid3`, the
permuted-boundary expansion agrees with the canonical one at a corner cell. -/
theorem C7_determinism_witness :
    (expandSt grid3 5 [((1 : Int), (1 : Int))] (delinSt grid3 (1, 1))).mask (0, 0) =
      (expandSt grid3 5 (boundaryCells grid3 (delinSt grid3 (1, 1)).mask)
        (delinSt grid3 (1, 1))).mask (0, 0) :=
  (C7_determinism grid3 (1, 1) 5 [((1 : Int), (1 : Int))] (by decide)).2 (0, 0)

/-- C3: outlet resolution fails with `OutOfBounds` exactly when the resolved
pixel lies outside the grid, and with `NoDataOutlet` exactly when it is in
bounds but sits on the nodata sentinel; both failures are fatal, producing an
error value instead of any mask or statistics. -/
theorem C3_outlet_validation (g : Grid) (o : Cell) (fl : ℚ) :
    (run g o fl = Except.error OErr.OutOfBounds ↔ ¬ inB g o) ∧
    (run g o fl = Except.error OErr.NoDataOutlet ↔ (inB g o ∧ ¬ notNoData g o)) := by
  unfold run
  by_cases h1 : inB g o
  · by_cases h2 : notNoData g o
    · rw [if_neg (not_not_intro h1), if_neg (not_not_intro h2)]
      simp [h1, h2]
    · rw [if_neg (not_not_intro h1), if_pos h2]
      simp [h1, h2]
  · rw [if_pos h1]
    simp [h1]

/-- C3 witness: a clearly out-of-bounds outlet on `grid3` fails with the
`OutOfBounds` error. -/
theorem C3_outlet_validation_witness :
    run grid3 (5, 5) 0 = Except.error OErr.OutOfBounds :=
  (C3_outlet_validation grid3 (5, 5) 0).1.mpr (by decide)

/-- C8: on the 3×3 grid with elevation 5 at the centre and 10 elsewhere and
the outlet at the centre: with flood level 0 only the centre is `Default` and
the total pixel count is 1; with flood level 5 the centre is `Default`, all 8
surrounding cells are `FloodExpansion`, and the total pixel count is 9. -/
theorem C8_scenario_grid3 :
    ((runFrom grid3 (1, 1) 0).mask (1, 1) = 1 ∧
      countPos grid3 (runFrom grid3 (1, 1) 0).mask = 1) ∧
    ((runFrom grid3 (1, 1) 5).mask (1, 1) = 1 ∧
      (runFrom grid3 (1, 1) 5).mask (0, 0) = 2 ∧
      (runFrom grid3 (1, 1) 5).mask (0, 1) = 2 ∧
      (runFrom grid3 (1, 1) 5).mask (0, 2) = 2 ∧
      (runFrom grid3 (1, 1) 5).mask (1, 0) = 2 ∧
      (runFrom grid3 (1, 1) 5).mask (1, 2) = 2 ∧
      (runFrom grid3 (1, 1) 5).mask (2, 0) = 2 ∧
      (runFrom grid3 (1, 1) 5).mask (2, 1) = 2 ∧
      (runFrom grid3 (1, 1) 5).mask (2, 2) = 2 ∧
      countPos grid3 (runFrom grid3 (1, 1) 5).mask = 9) := by
  with_unfolding_all decide

/-- C8 witness: the flood-level-0 scenario marks the centre `Default`. -/
theorem C8_scenario_grid3_witness :
    (runFrom grid3 (1, 1) 0).mask (1, 1) = 1 :=
  C8_scenario_grid3.1.1

theorem runFrom_le_two (g : Grid) (o : Cell) (fl : ℚ) (x : Cell) :
    (runFrom g o fl).mask x ≤ 2 := by
  by_cases hfl : 0 < fl
  · rw [runFrom_pos g o fl hfl]
    obtain ⟨hA, hB⟩ := expand_main g o fl (boundaryCells g (delinSt g o).mask)
    by_cases hfr : FloodReach g (delinSt g o).mask
        (boundaryCells g (delinSt g o).mask) fl x
    · rw [hA x hfr]
    · rw [hB x hfr]
      have := delin_le_one g o x
      omega
  · rw [runFrom_not_pos g o fl hfl]
    have := delin_le_one g o x
    omega

theorem runFrom_mask_one (g : Grid) (o : Cell) (fl : ℚ) (x : Cell) :
    (runFrom g o fl).mask x = 1 ↔ (delinSt g o).mask x = 1 := by
  by_cases hfl : 0 < fl
  · rw [runFrom_pos g o fl hfl]
    obtain ⟨hA, hB⟩ := expand_main g o fl (boundaryCells g (delinSt g o).mask)
    by_cases hfr : FloodReach g (delinSt g o).mask
        (boundaryCells g (delinSt g o).mask) fl x
    · rw [hA x hfr]
      have h0 := fr_m1_zero g (delinSt g o).mask
        (boundaryCells g (delinSt g o).mask) fl x hfr
      constructor <;> intro h <;> omega
    · rw [hB x hfr]
  · rw [runFrom_not_pos g o fl hfl]

theorem count_split (g : Grid) (m : Mask) (hle : ∀ x, m x ≤ 2) :
    countPos g m = countEq g m 1 + countEq g m 2 := by
  unfold countPos countEq
  have hsub : (cellsFinset g).filter (fun p => m p ≠ 0)
      = (cellsFinset g).filter (fun p => m p = 1 ∨ m p = 2) := by
    apply Finset.filter_congr
    intro x _
    have := hle x
    constructor <;> intro h <;> omega
  rw [hsub, Finset.filter_or]
  apply Finset.card_union_of_disjoint
  refine Finset.disjoint_left.mpr ?_
  intro a ha hb
  rw [Finset.mem_filter] at ha hb
  omega

theorem countEq_one_pres (g : Grid) (o : Cell) (fl : ℚ) :
    countEq g (runFrom g o fl).mask 1 = countEq g (delinSt g o).mask 1 := by
  unfold countEq
  have hfe : (cellsFinset g).filter (fun p => (runFrom g o fl).mask p = 1)
      = (cellsFinset g).filter (fun p => (delinSt g o).mask p = 1) := by
    apply Finset.filter_congr
    intro x _
    exact runFrom_mask_one g o fl x
  rw [hfe]

/-- C9: for a validated outlet the run succeeds and reports exactly these
statistics: pixel area `|a·e|`, total pixel count the number of non-zero mask
cells, total area the count times the pixel area, the reported expansion
count the number of `FloodExpansion` cells, and the mask passed through to
the result unchanged from the expansion stage. -/
theorem C9_statistics (g : Grid) (o : Cell) (fl : ℚ) (h1 : inB g o)
    (h2 : notNoData g o) :
    run g o fl = Except.ok
      { mask := (runFrom g o fl).mask,
        log := (runFrom g o fl).log,
        pixelArea := |g.ta * g.te|,
        defaultArea := countEq g (delinSt g o).mask 1,
        totalPixels := countPos g (runFrom g o fl).mask,
        totalArea := (countPos g (runFrom g o fl).mask : ℚ) * |g.ta * g.te|,
        expansionReported := countEq g (runFrom g o fl).mask 2 } := by
  have hkey : countPos g (runFrom g o fl).mask - countEq g (delinSt g o).mask 1
      = countEq g (runFrom g o fl).mask 2 := by
    have hs := count_split g (runFrom g o fl).mask (runFrom_le_two g o fl)
    have hp := countEq_one_pres g o fl
    omega
  unfold run
  rw [if_neg (not_not_intro h1), if_neg (not_not_intro h2), hkey]

/-- C9 witness: the statistics record of the flood-level-0 run on `grid3`. -/
theorem C9_statistics_witness :
    run grid3 (1, 1) 0 = Except.ok
      { mask := (runFrom grid3 (1, 1) 0).mask,
        log := (runFrom grid3 (1, 1) 0).log,
        pixelArea := |grid3.ta * grid3.te|,
        defaultArea := countEq grid3 (delinSt grid3 (1, 1)).mask 1,
        totalPixels := countPos grid3 (runFrom grid3 (1, 1) 0).mask,
        totalArea := (countPos grid3 (runFrom grid3 (1, 1) 0).mask : ℚ)
          * |grid3.ta * grid3.te|,
        expansionReported := countEq grid3 (runFrom grid3 (1, 1) 0).mask 2 } :=
  C9_statistics grid3 (1, 1) 0 (by decide) (by decide)

/-- C10: for a fixed grid and outlet the final mask is monotone in the flood
level — every cell non-zero at flood level `fl1 ≤ fl2` is non-zero at `fl2` —
and the set of `Default` cells is identical across flood levels. -/
theorem C10_flood_monotonicity (g : Grid) (o : Cell) (fl1 fl2 : ℚ)
    (h0 : 0 ≤ fl1) (h12 : fl1 ≤ fl2) :
    (∀ x, (runFrom g o fl1).mask x ≠ 0 → (runFrom g o fl2).mask x ≠ 0) ∧
    (∀ x, (runFrom g o fl1).mask x = 1 ↔ (runFrom g o fl2).mask x = 1) := by
  constructor
  · intro x hx
    by_cases hfl2 : 0 < fl2
    · rw [runFrom_pos g o fl2 hfl2]
      obtain ⟨hA2, hB2⟩ := expand_main g o fl2 (boundaryCells g (delinSt g o).mask)
      by_cases hfr2 : FloodReach g (delinSt g o).mask
          (boundaryCells g (delinSt g o).mask) fl2 x
      · rw [hA2 x hfr2]
        omega
      · rw [hB2 x hfr2]
        by_cases hfl1 : 0 < fl1
        · rw [runFrom_pos g o fl1 hfl1] at hx
          obtain ⟨hA1, hB1⟩ := expand_main g o fl1 (boundaryCells g (delinSt g o).mask)
          by_cases hfr1 : FloodReach g (delinSt g o).mask
              (boundaryCells g (delinSt g o).mask) fl1 x
          · exact absurd (fr_mono g (delinSt g o).mask
              (boundaryCells g (delinSt g o).mask) fl1 fl2 h12 x hfr1) hfr2
          · rw [hB1 x hfr1] at hx
            exact hx
        · rw [runFrom_not_pos g o fl1 hfl1] at hx
          exact hx
    · have hfl1 : ¬ 0 < fl1 := fun hc => hfl2 (lt_of_lt_of_le hc h12)
      rw [runFrom_not_pos g o fl2 hfl2]
      rw [runFrom_not_pos g o fl1 hfl1] at hx
      exact hx
  · intro x
    rw [runFrom_mask_one g o fl1 x, runFrom_mask_one g o fl2 x]

/-- C10 witness: on `grid3`, the centre cell is `Default` at flood level 0
iff it is `Default` at flood level 5. -/
theorem C10_flood_monotonicity_witness :
    (runFrom grid3 (1, 1) 0).mask (1, 1) = 1 ↔
      (runFrom grid3 (1, 1) 5).mask (1, 1) = 1 :=
  (C10_flood_monotonicity grid3 (1, 1) 0 5 (by decide) (by decide)).2 (1, 1)

theorem visit_logok (g : Grid) {v : Nat} (hv : v ≠ 0) (pe : ℚ) (st : St) (n : Cell)
    (h : LogOK g st) : LogOK g (visit g v pe st n) := by
  obtain ⟨hE, hN, hM⟩ := h
  unfold visit
  by_cases hg : inB g n ∧ st.mask n = 0 ∧ notNoData g n ∧ g.elev n.1 n.2 ≤ pe
  · rw [if_pos hg]
    refine ⟨?_, ?_, ?_⟩
    · intro e he
      rcases List.mem_append.mp he with hin | hnew
      · exact hE e hin
      · rw [List.mem_singleton.mp hnew]
        exact ⟨hg.2.1, hv, hg.1, hg.2.2.1⟩
    · show ((st.log ++ [(n, st.mask n, v)]).map Prod.fst).Nodup
      rw [List.map_append, List.nodup_append]
      refine ⟨hN, List.nodup_singleton n, ?_⟩
      intro a ha hb
      rw [List.mem_map] at ha
      obtain ⟨e, he, hea⟩ := ha
      have hane : a = n := List.mem_singleton.mp hb
      have hmne := hM e he
      rw [hea, hane] at hmne
      exact hmne hg.2.1
    · intro e he
      rcases List.mem_append.mp he with hin | hnew
      · show upd st.mask n v e.1 ≠ 0
        unfold upd
        by_cases hen : e.1 = n
        · rw [if_pos hen]
          exact hv
        · rw [if_neg hen]
          exact hM e hin
      · rw [List.mem_singleton.mp hnew]
        show upd st.mask n v n ≠ 0
        unfold upd
        rw [if_pos rfl]
        exact hv
  · rw [if_neg hg]
    exact ⟨hE, hN, hM⟩

theorem foldl_pres_st {α : Type} (P : St → Prop) (f : St → α → St)
    (hf : ∀ s a, P s → P (f s a)) :
    ∀ (l : List α) (s : St), P s → P (List.foldl f s l) := by
  intro l
  induction l with
  | nil =>
    intro s h
    exact h
  | cons a l ih =>
    intro s h
    exact ih (f s a) (hf s a h)

theorem visitList_logok (g : Grid) {v : Nat} (hv : v ≠ 0) (pe : ℚ) (p : Cell)
    (ds : List (Int × Int)) (st : St) (h : LogOK g st) :
    LogOK g (visitList g v pe p st ds) :=
  foldl_pres_st (LogOK g) (fun s d => visit g v pe s (cshift p d))
    (fun s d hs => visit_logok g hv pe s (cshift p d) hs) ds st h

theorem bfs_logok (g : Grid) {v : Nat} (hv : v ≠ 0) :
    ∀ (fuel : Nat) (st : St), LogOK g st → LogOK g (bfs g v fuel st) := by
  intro fuel
  induction fuel with
  | zero =>
    intro st h
    rw [bfs_zero]
    exact h
  | succ fuel ih =>
    intro st h
    cases hq : st.queue with
    | nil =>
      rw [bfs_succ_nil g v fuel st hq]
      exact h
    | cons p rest =>
      rw [bfs_succ_cons g v fuel st p rest hq]
      apply ih
      exact visitList_logok g hv (g.elev p.1 p.2) p neighborOffsets
        ⟨st.mask, rest, st.log⟩ h

theorem phase1From_logok (g : Grid) (fl : ℚ) (bl : List Cell) (st : St)
    (h : LogOK g st) : LogOK g (phase1From g fl st bl) :=
  foldl_pres_st (LogOK g) (fun s b => visitAll g 2 (g.elev b.1 b.2 + fl) b s)
    (fun s b hs => visitList_logok g two_ne_zero (g.elev b.1 b.2 + fl) b
      neighborOffsets s hs) bl st h

theorem initSt_logok (g : Grid) (o : Cell) (h1 : inB g o) (h2 : notNoData g o) :
    LogOK g (initSt o) := by
  refine ⟨?_, ?_, ?_⟩
  · intro e he
    rw [List.mem_singleton.mp he]
    exact ⟨rfl, one_ne_zero, h1, h2⟩
  · exact List.nodup_singleton o
  · intro e he
    rw [List.mem_singleton.mp he]
    show upd (fun _ => 0) o 1 o ≠ 0
    unfold upd
    rw [if_pos rfl]
    exact one_ne_zero

theorem runFrom_logok (g : Grid) (o : Cell) (fl : ℚ) (h1 : inB g o)
    (h2 : notNoData g o) : LogOK g (runFrom g o fl) := by
  have hd : LogOK g (delinSt g o) :=
    bfs_logok g one_ne_zero (fuelFor g) (initSt o) (initSt_logok g o h1 h2)
  by_cases hfl : 0 < fl
  · rw [runFrom_pos g o fl hfl]
    show LogOK g (bfs g 2 (2 * (g.height * g.width) + 1
      + (phase1 g fl (boundaryCells g (delinSt g o).mask) (delinSt g o).mask
          (delinSt g o).log).queue.length)
      (phase1 g fl (boundaryCells g (delinSt g o).mask) (delinSt g o).mask
        (delinSt g o).log))
    apply bfs_logok g two_ne_zero
    apply phase1From_logok
    exact hd
  · rw [runFrom_not_pos g o fl hfl]
    exact hd

theorem logok_length (g : Grid) (st : St) (h : LogOK g st) :
    st.log.length ≤ g.height * g.width := by
  obtain ⟨hE, hN, -⟩ := h
  have hsub : (st.log.map Prod.fst).toFinset ⊆ cellsFinset g := by
    intro a ha
    rw [List.mem_toFinset] at ha
    rw [List.mem_map] at ha
    obtain ⟨e, he, hea⟩ := ha
    rw [mem_cellsFinset]
    rw [← hea]
    exact (hE e he).2.2.1
  have hcard := Finset.card_le_card hsub
  rw [List.toFinset_card_of_nodup hN, List.length_map, card_cellsFinset g] at hcard
  exact hcard

/-- C5: throughout the whole run every write of a non-zero mask value hits a
cell that is `Unvisited` at that moment, no cell is written twice, the number
of writes is at most `height × width`, and nodata cells are never written. -/
theorem C5_write_once (g : Grid) (o : Cell) (fl : ℚ) (h1 : inB g o)
    (h2 : notNoData g o) :
    (∀ e ∈ (runFrom g o fl).log, e.2.1 = 0 ∧ e.2.2 ≠ 0) ∧
    ((runFrom g o fl).log.map Prod.fst).Nodup ∧
    (runFrom g o fl).log.length ≤ g.height * g.width ∧
    (∀ e ∈ (runFrom g o fl).log, notNoData g e.1) := by
  obtain ⟨hE, hN, hM⟩ := runFrom_logok g o fl h1 h2
  exact ⟨fun e he => ⟨(hE e he).1, (hE e he).2.1⟩, hN,
    logok_length g (runFrom g o fl) ⟨hE, hN, hM⟩,
    fun e he => (hE e he).2.2.2⟩

/-- C5 witness: the write count of the flood-level-5 run on `grid3` is within
the 3×3 pixel budget. -/
theorem C5_write_once_witness :
    (runFrom grid3 (1, 1) 5).log.length ≤ grid3.height * grid3.width :=
  (C5_write_once grid3 (1, 1) 5 (by decide) (by decide)).2.2.1
